import Mathlib

/-!
Verification development for the kindle-weather script (`weather-script.py`).

The script's parsing and rendering core is shallowly embedded here:

* the XML DOM consumed by `parse_weather` is abstracted as `WeatherDoc`
  (the element lists returned by the three `getElementsByTagName` calls, in
  document order; an element's text content is `Option String`, where `none`
  models a missing `firstChild` — the expat DOM creates no text child for
  empty content);
* Python `str.replace`, `str.split`, `str.rstrip`, `int(...)` and
  `datetime.strptime(_, "%Y-%m-%d")` are modelled by executable functions on
  `List Char` / `String` (`replaceAll`, `splitOnChar`, `rstripDigits`,
  `pyInt`, `pyStrptimeYmd`); ASCII behaviour is modelled exactly, exotic
  Unicode digit/case folding is out of scope of the claims;
* exceptions are modelled by `Except String`, with the script's own message
  strings;
* `datetime.weekday` after adding k days is computed through the proleptic
  Gregorian day number (`rataDie`), using that adding k days advances the day
  number by exactly k.
-/

/-! ## Generic character-list utilities (Python string primitives) -/

/-- Boolean prefix test on character lists (Python `startswith` at a position). -/
def isPfx : List Char → List Char → Bool
  | [], _ => true
  | _ :: _, [] => false
  | a :: as, b :: bs => a == b && isPfx as bs

/-- One step of Python `str.replace` for the empty pattern:
`"ab".replace("", "x") = "xaxbx"`. -/
def interleave (r : List Char) : List Char → List Char
  | [] => r
  | c :: cs => r ++ c :: interleave r cs

/-- Fueled worker for `replaceAll`: leftmost, non-overlapping replacement of a
non-empty pattern `p` by `r`.  One unit of fuel is spent per step, and every
step consumes at least one character, so fuel `s.length` is always enough. -/
def repAux (p r : List Char) : Nat → List Char → List Char
  | 0, s => s
  | _ + 1, [] => []
  | fuel + 1, c :: cs =>
    if isPfx p (c :: cs) then r ++ repAux p r fuel ((c :: cs).drop p.length)
    else c :: repAux p r fuel cs

/-- Python `s.replace(p, r)`: leftmost non-overlapping occurrences of `p` are
replaced by `r`; the empty pattern inserts `r` at every position. -/
def replaceAll (p r s : List Char) : List Char :=
  if p.isEmpty then interleave r s else repAux p r s.length s

/-- `occursIn p s` holds when `p` occurs as a contiguous substring of `s`. -/
def occursIn (p : List Char) : List Char → Bool
  | [] => p.isEmpty
  | c :: cs => isPfx p (c :: cs) || occursIn p cs

/-- Python `s.split(sep)` for a one-character separator: splits on every
occurrence, keeping empty pieces, and never returns an empty list. -/
def splitOnChar (sep : Char) : List Char → List (List Char)
  | [] => [[]]
  | c :: cs =>
    let r := splitOnChar sep cs
    if c = sep then [] :: r
    else
      match r with
      | [] => [[c]]
      | x :: xs => (c :: x) :: xs

/-- Python `s.rstrip("0123456789")`: drop trailing ASCII decimal digits. -/
def rstripDigits (l : List Char) : List Char :=
  (l.reverse.dropWhile Char.isDigit).reverse

/-! ## Python `int(...)` on strings -/

def digitVal (c : Char) : Nat := c.toNat - '0'.toNat

/-- Continuation of an integer literal: digits, optionally separated by single
underscores (`"1_000"` is legal, `"1__0"`, `"1_"` are not). -/
def pyIntDigits : Nat → List Char → Option Nat
  | acc, [] => some acc
  | acc, '_' :: c :: rest =>
    if c.isDigit then pyIntDigits (acc * 10 + digitVal c) rest else none
  | acc, c :: rest =>
    if c.isDigit then pyIntDigits (acc * 10 + digitVal c) rest else none

/-- An integer literal body: must start with a digit. -/
def pyIntCore : List Char → Option Nat
  | [] => none
  | c :: rest => if c.isDigit then pyIntDigits (digitVal c) rest else none

def isPySpace (c : Char) : Bool :=
  c = ' ' || c = '\t' || c = '\n' || c = '\r' || c = '\x0b' || c = '\x0c'

/-- Python `int(s)` for a decimal string: strip surrounding whitespace, allow
one optional sign, then a digit run with optional single underscores.
Returns `none` where Python raises `ValueError`. -/
def pyInt (s : String) : Option Int :=
  let t := ((s.toList.dropWhile isPySpace).reverse.dropWhile isPySpace).reverse
  match t with
  | '-' :: rest => (pyIntCore rest).map (fun n => -(n : Int))
  | '+' :: rest => (pyIntCore rest).map (fun n => (n : Int))
  | _ => (pyIntCore t).map (fun n => (n : Int))

/-! ## Calendar model and `datetime.strptime(_, "%Y-%m-%d")` -/

structure Date where
  year : Nat
  month : Nat
  day : Nat
  deriving DecidableEq, Repr

def isLeap (y : Nat) : Bool := (y % 4 == 0 && y % 100 != 0) || y % 400 == 0

def monthLen (y m : Nat) : Nat :=
  if m = 2 then (if isLeap y then 29 else 28)
  else if m = 4 || m = 6 || m = 9 || m = 11 then 30
  else 31

def daysBeforeMonth (y m : Nat) : Nat :=
  (List.range (m - 1)).foldl (fun acc k => acc + monthLen y (k + 1)) 0

/-- Proleptic Gregorian day number: `rataDie ⟨1,1,1⟩ = 1`, and adding one
calendar day adds exactly 1.  0001-01-01 is a Monday. -/
def rataDie (d : Date) : Nat :=
  365 * (d.year - 1) + (d.year - 1) / 4 + (d.year - 1) / 400 - (d.year - 1) / 100
    + daysBeforeMonth d.year d.month + d.day

/-- Python `date.weekday()`: Monday = 0 … Sunday = 6. -/
def pyWeekday (d : Date) : Nat := (rataDie d + 6) % 7

/-- `(d + timedelta(days := k)).weekday()`: adding `k` days advances the day
number by `k`, so the weekday is computed directly from `rataDie d + k`. -/
def weekdayAfter (d : Date) (k : Nat) : Nat := (rataDie d + k + 6) % 7

def twoDigitVal (a b : Char) : Nat := 10 * digitVal a + digitVal b

/-- The `%m-%d` tail of CPython's `%Y-%m-%d` regex: month is
`1[0-2]|0[1-9]|[1-9]`, day is `3[01]|[12]\d|0[1-9]|[1-9]`, the whole string
must be consumed.  Numeric range checks happen in `pyStrptimeYmd`. -/
def parseMDTail : List Char → Option (Nat × Nat)
  | m1 :: m2 :: '-' :: r =>
    if m1.isDigit && m2.isDigit then
      match r with
      | [d1] => if d1.isDigit then some (twoDigitVal m1 m2, digitVal d1) else none
      | [d1, d2] =>
        if d1.isDigit && d2.isDigit then some (twoDigitVal m1 m2, twoDigitVal d1 d2) else none
      | _ => none
    else none
  | m1 :: '-' :: r =>
    if m1.isDigit then
      match r with
      | [d1] => if d1.isDigit then some (digitVal m1, digitVal d1) else none
      | [d1, d2] =>
        if d1.isDigit && d2.isDigit then some (digitVal m1, twoDigitVal d1 d2) else none
      | _ => none
    else none
  | _ => none

/-- `datetime.strptime(s, "%Y-%m-%d")`: four year digits, dash, 1-2 month
digits, dash, 1-2 day digits, nothing left over; then the values must form a
real proleptic Gregorian calendar date with year ≥ 1 (`datetime.MINYEAR`).
Returns `none` where Python raises `ValueError`. -/
def pyStrptimeYmd (s : String) : Option Date :=
  match s.toList with
  | y1 :: y2 :: y3 :: y4 :: '-' :: rest =>
    if y1.isDigit && y2.isDigit && y3.isDigit && y4.isDigit then
      let y := 1000 * digitVal y1 + 100 * digitVal y2 + 10 * digitVal y3 + digitVal y4
      match parseMDTail rest with
      | some (m, d) =>
        if 1 ≤ y && 1 ≤ m && m ≤ 12 && 1 ≤ d && d ≤ monthLen y m then
          some ⟨y, m, d⟩
        else none
      | none => none
    else none
  | _ => none

/-! ## The abstracted XML document -/

/-- One `<temperature>` element: its `type` attribute (`""` when absent, as
`getAttribute` returns) and the text content of each child `<value>` element
in document order (`none` = the value element has no `firstChild`). -/
structure TempElem where
  type : String
  values : List (Option String)
  deriving DecidableEq

/-- The parts of the DOM that `parse_weather` consumes: the three
`getElementsByTagName` result lists, each in document order, elements
abstracted to the text content the script reads from them. -/
structure WeatherDoc where
  temperatures : List TempElem
  iconLinks : List (Option String)
  startValidTimes : List (Option String)
  deriving DecidableEq

/-! ## `parse_weather` -/

def NUM_DAYS : Nat := 4

/-- The message of the `ValueError` raised by `int(...)` on a bad literal. -/
def intErrMsg : String := "invalid literal for int() with base 10"

/-- `raise ValueError("Weather feed did not contain start-valid-time")`. -/
def startMsg : String := "Weather feed did not contain start-valid-time"

/-- `raise ValueError("Weather feed did not contain complete high/low temperature data")`. -/
def incompleteMsg : String := "Weather feed did not contain complete high/low temperature data"

/-- The `ValueError` raised by `strptime` on a format mismatch. -/
def strptimeErrMsg : String := "time data does not match format %Y-%m-%d"

/-- The loop `for i in range(min(NUM_DAYS, len(values))): if values[i].firstChild
is not None: arr[i] = int(values[i].firstChild.nodeValue)`, with `i` starting
at `i0` and the value texts already truncated to the first `NUM_DAYS`. -/
def fillValsGo : Nat → List (Option String) → List (Option Int) → Except String (List (Option Int))
  | _, [], arr => .ok arr
  | i, v :: vs, arr =>
    match v with
    | none => fillValsGo (i + 1) vs arr
    | some s =>
      match pyInt s with
      | some n => fillValsGo (i + 1) vs (arr.set i (some n))
      | none => .error intErrMsg

def fillVals (values : List (Option String)) (arr : List (Option Int)) :
    Except String (List (Option Int)) :=
  fillValsGo 0 (values.take NUM_DAYS) arr

/-- The body of `for item in dom.getElementsByTagName("temperature")`: two
independent `if` tests on the `type` attribute, updating `highs` / `lows`.
An exception raised by `int(...)` aborts everything, modelled by the
match-on-error chains. -/
def tempStep (hl : List (Option Int) × List (Option Int)) (item : TempElem) :
    Except String (List (Option Int) × List (Option Int)) :=
  let first : Except String (List (Option Int) × List (Option Int)) :=
    if item.type = "maximum" then
      match fillVals item.values hl.1 with
      | .error e => .error e
      | .ok h => .ok (h, hl.2)
    else .ok hl
  match first with
  | .error e => .error e
  | .ok hl1 =>
    if item.type = "minimum" then
      match fillVals item.values hl1.2 with
      | .error e => .error e
      | .ok lo => .ok (hl1.1, lo)
    else .ok hl1

/-- The temperature loop, element by element in document order. -/
def processTempsGo : List TempElem → (List (Option Int) × List (Option Int)) →
    Except String (List (Option Int) × List (Option Int))
  | [], hl => .ok hl
  | item :: rest, hl =>
    match tempStep hl item with
    | .error e => .error e
    | .ok hl2 => processTempsGo rest hl2

/-- Lines 55-67: `highs = [None]*NUM_DAYS; lows = [None]*NUM_DAYS` followed by
the temperature loop, in document order. -/
def processTemps (temps : List TempElem) :
    Except String (List (Option Int) × List (Option Int)) :=
  processTempsGo temps (List.replicate NUM_DAYS none, List.replicate NUM_DAYS none)

/-- `ICON_TOKEN_RE = re.compile(r"^[a-z0-9_-]+$")`, one character. -/
def allowChar (c : Char) : Bool :=
  ('a' ≤ c && c ≤ 'z') || ('0' ≤ c && c ≤ '9') || c = '_' || c = '-'

/-- `ICON_TOKEN_RE.fullmatch(l)`: non-empty and every character allowed. -/
def matchesAllow (l : List Char) : Bool := !l.isEmpty && l.all allowChar

/-- The candidate stem: `nodeValue.split("/")[-1].split(".")[0]` -/
def iconStem (s : String) : List Char :=
  (splitOnChar '.' ((splitOnChar '/' s.toList).getLastD [])).headD []

/-- Lines 74-77: `raw = text.split("/")[-1].split(".")[0].rstrip("0123456789")`,
`normalized = raw.lower()`, allow-list check, fallback `"na"`. -/
def iconTokenFromText (s : String) : String :=
  let raw := rstripDigits (iconStem s)
  let normalized := raw.map Char.toLower
  if matchesAllow normalized then String.mk normalized else "na"

/-- Lines 69-78: for each day index `0 ≤ i < NUM_DAYS`, the token is derived
from the icon-link entry at `i` when it exists and has a text child,
otherwise `"na"`. -/
def parseIcons (links : List (Option String)) : List String :=
  (List.range NUM_DAYS).map fun i =>
    match links.getD i none with
    | some s => iconTokenFromText s
    | none => "na"

/-- `parse_weather` (lines 49-90), after the XML has been abstracted into a
`WeatherDoc`.  Step order matches the source: the temperature loop (whose
`int(...)` calls can raise), the icon loop (never raises), the
start-valid-time presence check, `strptime` on the first 10 characters, and
finally the completeness check on highs/lows. -/
def parse_weather (doc : WeatherDoc) :
    Except String (List Int × List Int × List String × Date) :=
  match processTemps doc.temperatures with
  | .error e => .error e
  | .ok hl =>
    let icons := parseIcons doc.iconLinks
    match doc.startValidTimes.getD 0 none with
    | none => .error startMsg
    | some startText =>
      match pyStrptimeYmd (String.mk (startText.toList.take 10)) with
      | none => .error strptimeErrMsg
      | some dayOne =>
        if hl.1.any Option.isNone || hl.2.any Option.isNone then
          .error incompleteMsg
        else
          .ok (hl.1.map (fun o => o.getD 0), hl.2.map (fun o => o.getD 0), icons, dayOne)

/-! ## `render_svg` -/

/-- Line 117, including the deliberate `"Caturday"`. -/
def daysOfWeek : List String :=
  ["Monday", "Tuesday", "Wednesday", "Thursday", "Friday", "Caturday", "Sunday"]

/-- Lines 97-122 of `render_svg`: the fourteen successive literal `str.replace`
calls on the template text, in source order.  The file read/write around them
is the external collaborator and is not modelled. -/
def renderSvg (highs lows : List Int) (icons : List String) (dayOne : Date)
    (template : List Char) : List Char :=
  let o1 := replaceAll "ICON_ONE".toList (icons.getD 0 "").toList template
  let o2 := replaceAll "ICON_TWO".toList (icons.getD 1 "").toList o1
  let o3 := replaceAll "ICON_THREE".toList (icons.getD 2 "").toList o2
  let o4 := replaceAll "ICON_FOUR".toList (icons.getD 3 "").toList o3
  let o5 := replaceAll "HIGH_ONE".toList (toString (highs.getD 0 0)).toList o4
  let o6 := replaceAll "HIGH_TWO".toList (toString (highs.getD 1 0)).toList o5
  let o7 := replaceAll "HIGH_THREE".toList (toString (highs.getD 2 0)).toList o6
  let o8 := replaceAll "HIGH_FOUR".toList (toString (highs.getD 3 0)).toList o7
  let o9 := replaceAll "LOW_ONE".toList (toString (lows.getD 0 0)).toList o8
  let o10 := replaceAll "LOW_TWO".toList (toString (lows.getD 1 0)).toList o9
  let o11 := replaceAll "LOW_THREE".toList (toString (lows.getD 2 0)).toList o10
  let o12 := replaceAll "LOW_FOUR".toList (toString (lows.getD 3 0)).toList o11
  let o13 := replaceAll "DAY_THREE".toList (daysOfWeek.getD (weekdayAfter dayOne 2) "").toList o12
  replaceAll "DAY_FOUR".toList (daysOfWeek.getD (weekdayAfter dayOne 3) "").toList o13

/-- The fourteen (pattern, replacement) pairs of `renderSvg`, in source order. -/
def subsList (highs lows : List Int) (icons : List String) (dayOne : Date) :
    List (List Char × List Char) :=
  [("ICON_ONE".toList, (icons.getD 0 "").toList),
   ("ICON_TWO".toList, (icons.getD 1 "").toList),
   ("ICON_THREE".toList, (icons.getD 2 "").toList),
   ("ICON_FOUR".toList, (icons.getD 3 "").toList),
   ("HIGH_ONE".toList, (toString (highs.getD 0 0)).toList),
   ("HIGH_TWO".toList, (toString (highs.getD 1 0)).toList),
   ("HIGH_THREE".toList, (toString (highs.getD 2 0)).toList),
   ("HIGH_FOUR".toList, (toString (highs.getD 3 0)).toList),
   ("LOW_ONE".toList, (toString (lows.getD 0 0)).toList),
   ("LOW_TWO".toList, (toString (lows.getD 1 0)).toList),
   ("LOW_THREE".toList, (toString (lows.getD 2 0)).toList),
   ("LOW_FOUR".toList, (toString (lows.getD 3 0)).toList),
   ("DAY_THREE".toList, (daysOfWeek.getD (weekdayAfter dayOne 2) "").toList),
   ("DAY_FOUR".toList, (daysOfWeek.getD (weekdayAfter dayOne 3) "").toList)]

/-- Sequential application of a substitution list, leftmost pair first. -/
def applySubs (subs : List (List Char × List Char)) (t : List Char) : List Char :=
  subs.foldl (fun s pr => replaceAll pr.1 pr.2 s) t

/-- The fourteen placeholder patterns that `renderSvg` substitutes. -/
def placeholderPatterns : List (List Char) :=
  ["ICON_ONE".toList, "ICON_TWO".toList, "ICON_THREE".toList, "ICON_FOUR".toList,
   "HIGH_ONE".toList, "HIGH_TWO".toList, "HIGH_THREE".toList, "HIGH_FOUR".toList,
   "LOW_ONE".toList, "LOW_TWO".toList, "LOW_THREE".toList, "LOW_FOUR".toList,
   "DAY_THREE".toList, "DAY_FOUR".toList]

/-- Characters that can appear in a placeholder token: uppercase ASCII or `_`. -/
def phChar (c : Char) : Bool := c.isUpper || c = '_'

/-! ## Spec-side comparison definitions -/

/-- Modelled from the spec claim's words (claim C1): the candidate strips the
extension, i.e. the text after the LAST `.` of the final path segment, then
trailing digits, then lowercases, then applies the allow-list with fallback
`"na"`.  Kept for comparison with the source's `iconTokenFromText`, which
instead keeps the text before the FIRST `.`. -/
def stripExtLastDot (seg : List Char) : List Char :=
  if seg.contains '.' then ((seg.reverse.dropWhile (fun c => c ≠ '.')).drop 1).reverse
  else seg

def specIconTokenLastDot (s : String) : String :=
  let seg := (splitOnChar '/' s.toList).getLastD []
  let raw := rstripDigits (stripExtLastDot seg)
  let normalized := raw.map Char.toLower
  if matchesAllow normalized then String.mk normalized else "na"

/-- Modelled from the amended spec words: final path segment (last `/`-split
piece), the text before the FIRST `.`, strip trailing digits, lowercase,
allow-list with fallback `"na"`. -/
def specIconTokenFirstDot (s : String) : String :=
  let seg := (splitOnChar '/' s.toList).getLastD []
  let cand := seg.takeWhile (fun c => c ≠ '.')
  let normalized := (rstripDigits cand).map Char.toLower
  if matchesAllow normalized then String.mk normalized else "na"

example : iconTokenFromText "https://example.com/path/ICON42.png" = "icon" := rfl
example : iconTokenFromText "https://example.com/fog.day.png" = "fog" := rfl
example : specIconTokenLastDot "https://example.com/fog.day.png" = "na" := rfl
example : pyStrptimeYmd "2024-03-10" = some ⟨2024, 3, 10⟩ := rfl
example : pyWeekday ⟨2024, 3, 10⟩ = 6 := rfl
example : pyWeekday ⟨2024, 3, 12⟩ = 1 := rfl
example : pyInt " -42 " = some (-42) := rfl
example : pyInt "4_2" = some 42 := rfl
example : pyInt "7x" = none := rfl
example : replaceAll "aa".toList "b".toList "aaa".toList = "ba".toList := rfl
example :
    parse_weather
      ⟨[⟨"maximum", [some "70", some "72", some "68", some "65"]⟩,
        ⟨"minimum", [some "55", some "58", some "50", some "48"]⟩],
       [some "https://e/few.png", some "https://e/bkn64.png"],
       [some "2024-03-10T00:00:00"]⟩ =
    .ok ([70, 72, 68, 65], [55, 58, 50, 48], ["few", "bkn", "na", "na"], ⟨2024, 3, 10⟩) := rfl
example :
    renderSvg [70, 72, 68, 65] [55, 58, 50, 48] ["few", "bkn", "na", "rain"] ⟨2024, 3, 10⟩
      "DAY_THREE x HIGH_ONE".toList = "Tuesday x 70".toList := rfl

/-! ## Lemmas about the string primitives -/

theorem isEmpty_false_of_ne {p : List Char} (hp : p ≠ []) : p.isEmpty = false := by
  cases p with
  | nil => exact absurd rfl hp
  | cons a as => rfl

theorem isPfx_self_append (p w : List Char) : isPfx p (p ++ w) = true := by
  induction p with
  | nil => rfl
  | cons a as ih => simp [isPfx, ih]

theorem isPfx_cons_false_of_ne {p : List Char} (hp : p ≠ []) {c : Char} {cs : List Char}
    (hc : c ∉ p) : isPfx p (c :: cs) = false := by
  cases p with
  | nil => exact absurd rfl hp
  | cons a as =>
    have hac : a ≠ c := by
      intro h
      exact hc (h ▸ List.mem_cons_self a as)
    simp [isPfx, hac]

theorem repAux_fuel {p r : List Char} (hp : p ≠ []) :
    ∀ (f1 : Nat) (s : List Char) (f2 : Nat), s.length ≤ f1 → s.length ≤ f2 →
      repAux p r f1 s = repAux p r f2 s := by
  intro f1
  induction f1 with
  | zero =>
    intro s f2 h1 _
    have hs : s = [] := List.eq_nil_of_length_eq_zero (Nat.le_zero.mp h1)
    subst hs
    cases f2 <;> rfl
  | succ f ih =>
    intro s f2 h1 h2
    cases s with
    | nil => cases f2 <;> rfl
    | cons c cs =>
      have hplen : 1 ≤ p.length := by
        cases p with
        | nil => exact absurd rfl hp
        | cons _ _ => simp
      cases f2 with
      | zero => simp at h2
      | succ g =>
        simp only [repAux]
        by_cases hpre : isPfx p (c :: cs) = true
        · rw [if_pos hpre, if_pos hpre]
          congr 1
          apply ih
          · simp only [List.length_drop, List.length_cons]
            simp only [List.length_cons] at h1
            omega
          · simp only [List.length_drop, List.length_cons]
            simp only [List.length_cons] at h2
            omega
        · rw [if_neg hpre, if_neg hpre]
          congr 1
          apply ih
          · simp only [List.length_cons] at h1; omega
          · simp only [List.length_cons] at h2; omega

theorem replaceAll_nil {p : List Char} (r : List Char) (hp : p ≠ []) :
    replaceAll p r [] = [] := by
  simp [replaceAll, isEmpty_false_of_ne hp, repAux]

theorem replaceAll_pos {p : List Char} (r : List Char) (hp : p ≠ []) {c : Char} {cs : List Char}
    (h : isPfx p (c :: cs) = true) :
    replaceAll p r (c :: cs) = r ++ replaceAll p r ((c :: cs).drop p.length) := by
  have hplen : 1 ≤ p.length := by
    cases p with
    | nil => exact absurd rfl hp
    | cons _ _ => simp
  simp only [replaceAll, isEmpty_false_of_ne hp, Bool.false_eq_true, if_false,
    List.length_cons, repAux, if_pos h]
  congr 1
  apply repAux_fuel hp
  · simp only [List.length_drop, List.length_cons]; omega
  · exact Nat.le_refl _

theorem replaceAll_neg {p : List Char} (r : List Char) (hp : p ≠ []) {c : Char} {cs : List Char}
    (h : isPfx p (c :: cs) = false) :
    replaceAll p r (c :: cs) = c :: replaceAll p r cs := by
  simp only [replaceAll, isEmpty_false_of_ne hp, Bool.false_eq_true, if_false,
    List.length_cons, repAux, h]

theorem replaceAll_of_not_occurs {p r : List Char} (hp : p ≠ []) :
    ∀ s : List Char, occursIn p s = false → replaceAll p r s = s := by
  intro s
  induction s with
  | nil => intro _; exact replaceAll_nil r hp
  | cons c cs ih =>
    intro h
    simp only [occursIn, Bool.or_eq_false_iff] at h
    rw [replaceAll_neg r hp h.1, ih h.2]

theorem replaceAll_append_of_disjoint {p r : List Char} (hp : p ≠ []) :
    ∀ (u w : List Char), (∀ c ∈ u, c ∉ p) →
      replaceAll p r (u ++ w) = u ++ replaceAll p r w := by
  intro u
  induction u with
  | nil => intro w _; simp
  | cons c u ih =>
    intro w hu
    have hc : c ∉ p := hu c (List.mem_cons_self c u)
    have hpre : isPfx p (c :: (u ++ w)) = false := isPfx_cons_false_of_ne hp hc
    rw [List.cons_append, replaceAll_neg r hp hpre,
      ih w (fun x hx => hu x (List.mem_cons_of_mem c hx)), List.cons_append]

theorem replaceAll_self_append {p r : List Char} (hp : p ≠ []) (w : List Char) :
    replaceAll p r (p ++ w) = r ++ replaceAll p r w := by
  cases p with
  | nil => exact absurd rfl hp
  | cons a as =>
    show replaceAll (a :: as) r (a :: (as ++ w)) = r ++ replaceAll (a :: as) r w
    have h : isPfx (a :: as) (a :: (as ++ w)) = true := isPfx_self_append (a :: as) w
    rw [replaceAll_pos r hp h]
    congr 2
    exact List.drop_left (a :: as) w

theorem occursIn_eq_false_of_disjoint {p : List Char} (hp : p ≠ []) :
    ∀ v : List Char, (∀ c ∈ v, c ∉ p) → occursIn p v = false := by
  intro v
  induction v with
  | nil => simp [occursIn, isEmpty_false_of_ne hp]
  | cons c cs ih =>
    intro hv
    have h1 : isPfx p (c :: cs) = false :=
      isPfx_cons_false_of_ne hp (hv c (List.mem_cons_self c cs))
    simp [occursIn, h1, ih (fun x hx => hv x (List.mem_cons_of_mem c hx))]

theorem occursIn_append_left_disjoint {p : List Char} (hp : p ≠ []) :
    ∀ (u w : List Char), (∀ c ∈ u, c ∉ p) → occursIn p (u ++ w) = occursIn p w := by
  intro u
  induction u with
  | nil => intro w _; rfl
  | cons c u ih =>
    intro w hu
    have h1 : isPfx p (c :: (u ++ w)) = false :=
      isPfx_cons_false_of_ne hp (hu c (List.mem_cons_self c u))
    rw [List.cons_append]
    show (isPfx p (c :: (u ++ w)) || occursIn p (u ++ w)) = occursIn p w
    rw [h1, ih w (fun x hx => hu x (List.mem_cons_of_mem c hx))]
    simp

theorem isPfx_append_right_disjoint :
    ∀ (x p v : List Char), p ≠ [] → (∀ c ∈ v, c ∉ p) → isPfx p (x ++ v) = isPfx p x := by
  intro x
  induction x with
  | nil =>
    intro p v hp hv
    cases p with
    | nil => exact absurd rfl hp
    | cons a as =>
      cases v with
      | nil => rfl
      | cons b bs =>
        have hab : a ≠ b := by
          intro h
          subst h
          exact hv a (List.mem_cons_self a bs) (List.mem_cons_self a as)
        simp [isPfx, hab]
  | cons xh xt ih =>
    intro p v hp hv
    cases p with
    | nil => exact absurd rfl hp
    | cons a as =>
      by_cases has : as = []
      · subst has
        simp [isPfx]
      · have hv2 : ∀ c ∈ v, c ∉ as := fun c hc h => hv c hc (List.mem_cons_of_mem a h)
        have hrec := ih as v has hv2
        rw [List.cons_append]
        show (a == xh && isPfx as (xt ++ v)) = (a == xh && isPfx as xt)
        rw [hrec]

theorem occursIn_append_right_disjoint {p : List Char} (hp : p ≠ []) :
    ∀ (m v : List Char), (∀ c ∈ v, c ∉ p) → occursIn p (m ++ v) = occursIn p m := by
  intro m
  induction m with
  | nil =>
    intro v hv
    have h1 := occursIn_eq_false_of_disjoint hp v hv
    simp [occursIn, h1, isEmpty_false_of_ne hp]
  | cons mh mt ih =>
    intro v hv
    have h1 : isPfx p ((mh :: mt) ++ v) = isPfx p (mh :: mt) :=
      isPfx_append_right_disjoint (mh :: mt) p v hp hv
    rw [List.cons_append]
    show (isPfx p (mh :: (mt ++ v)) || occursIn p (mt ++ v)) =
      (isPfx p (mh :: mt) || occursIn p mt)
    rw [← List.cons_append, h1, ih v hv]

theorem occursIn_mid {p : List Char} (hp : p ≠ []) (u m v : List Char)
    (hu : ∀ c ∈ u, c ∉ p) (hv : ∀ c ∈ v, c ∉ p) :
    occursIn p (u ++ m ++ v) = occursIn p m := by
  rw [List.append_assoc, occursIn_append_left_disjoint hp u (m ++ v) hu,
    occursIn_append_right_disjoint hp m v hv]

theorem replaceAll_frame_mid {p : List Char} (r : List Char) (hp : p ≠ []) (u m v : List Char)
    (hu : ∀ c ∈ u, c ∉ p) (hv : ∀ c ∈ v, c ∉ p) (hm : occursIn p m = false) :
    replaceAll p r (u ++ m ++ v) = u ++ m ++ v :=
  replaceAll_of_not_occurs hp _ (by rw [occursIn_mid hp u m v hu hv]; exact hm)

theorem replaceAll_hit_mid {p : List Char} (r : List Char) (hp : p ≠ []) (u v : List Char)
    (hu : ∀ c ∈ u, c ∉ p) (hv : occursIn p v = false) :
    replaceAll p r (u ++ p ++ v) = u ++ r ++ v := by
  rw [List.append_assoc, replaceAll_append_of_disjoint hp u (p ++ v) hu,
    replaceAll_self_append hp v, replaceAll_of_not_occurs hp v hv, List.append_assoc]

theorem not_mem_of_phChar {p : List Char} (hP : ∀ c ∈ p, phChar c = true)
    {c : Char} (hc : phChar c = false) : c ∉ p := by
  intro h
  rw [hP c h] at hc
  simp at hc

/-! ## Lemmas about the temperature loop -/

theorem fillValsGo_length :
    ∀ (vs : List (Option String)) (i : Nat) (arr arr' : List (Option Int)),
      fillValsGo i vs arr = .ok arr' → arr'.length = arr.length := by
  intro vs
  induction vs with
  | nil =>
    intro i arr arr' h
    simp only [fillValsGo] at h
    injection h with h2
    rw [h2]
  | cons v vs ih =>
    intro i arr arr' h
    cases v with
    | none =>
      simp only [fillValsGo] at h
      exact ih (i + 1) arr arr' h
    | some s =>
      cases hps : pyInt s with
      | none => simp [fillValsGo, hps] at h
      | some n =>
        simp only [fillValsGo, hps] at h
        have := ih (i + 1) _ _ h
        simpa using this

theorem fillValsGo_frame_low :
    ∀ (vs : List (Option String)) (i0 : Nat) (arr arr' : List (Option Int)),
      fillValsGo i0 vs arr = .ok arr' → ∀ k, k < i0 → arr'[k]? = arr[k]? := by
  intro vs
  induction vs with
  | nil =>
    intro i0 arr arr' h k _
    simp only [fillValsGo] at h
    injection h with h2
    rw [h2]
  | cons v vs ih =>
    intro i0 arr arr' h k hk
    cases v with
    | none =>
      simp only [fillValsGo] at h
      exact ih (i0 + 1) arr arr' h k (Nat.lt_succ_of_lt hk)
    | some s =>
      cases hps : pyInt s with
      | none => simp [fillValsGo, hps] at h
      | some n =>
        simp only [fillValsGo, hps] at h
        have hrec := ih (i0 + 1) _ _ h k (Nat.lt_succ_of_lt hk)
        rw [hrec, List.getElem?_set_ne (Nat.ne_of_gt hk)]

theorem fillValsGo_getElem :
    ∀ (vs : List (Option String)) (i0 : Nat) (arr arr' : List (Option Int)),
      fillValsGo i0 vs arr = .ok arr' → i0 + vs.length ≤ arr.length →
      ∀ (j : Nat) (s : String), vs[j]? = some (some s) →
        ∃ n, pyInt s = some n ∧ arr'[i0 + j]? = some (some n) := by
  intro vs
  induction vs with
  | nil =>
    intro i0 arr arr' _ _ j s hj
    simp at hj
  | cons v vs ih =>
    intro i0 arr arr' h hlen j s hj
    cases v with
    | none =>
      simp only [fillValsGo] at h
      cases j with
      | zero => simp at hj
      | succ j =>
        have hlen2 : (i0 + 1) + vs.length ≤ arr.length := by
          simp only [List.length_cons] at hlen
          omega
        have hj2 : vs[j]? = some (some s) := by simpa using hj
        obtain ⟨n, hn, hidx⟩ := ih (i0 + 1) arr arr' h hlen2 j s hj2
        refine ⟨n, hn, ?_⟩
        have harith : i0 + 1 + j = i0 + (j + 1) := by omega
        rwa [harith] at hidx
    | some s0 =>
      cases hps : pyInt s0 with
      | none => simp [fillValsGo, hps] at h
      | some n0 =>
        simp only [fillValsGo, hps] at h
        cases j with
        | zero =>
          have hs : s0 = s := by simpa using hj
          subst hs
          have hlow := fillValsGo_frame_low vs (i0 + 1) _ arr' h i0 (Nat.lt_succ_self i0)
          have hlt : i0 < arr.length := by
            simp only [List.length_cons] at hlen
            omega
          refine ⟨n0, hps, ?_⟩
          rw [Nat.add_zero, hlow, List.getElem?_set_self hlt]
        | succ j =>
          have hlen2 : (i0 + 1) + vs.length ≤ (arr.set i0 (some n0)).length := by
            simp only [List.length_cons] at hlen
            simp only [List.length_set]
            omega
          have hj2 : vs[j]? = some (some s) := by simpa using hj
          obtain ⟨n, hn, hidx⟩ := ih (i0 + 1) _ arr' h hlen2 j s hj2
          refine ⟨n, hn, ?_⟩
          have harith : i0 + 1 + j = i0 + (j + 1) := by omega
          rwa [harith] at hidx

theorem fillValsGo_frame_skip :
    ∀ (vs : List (Option String)) (i0 : Nat) (arr arr' : List (Option Int)),
      fillValsGo i0 vs arr = .ok arr' → ∀ k, i0 ≤ k →
        (vs[k - i0]? = none ∨ vs[k - i0]? = some none) → arr'[k]? = arr[k]? := by
  intro vs
  induction vs with
  | nil =>
    intro i0 arr arr' h k _ _
    simp only [fillValsGo] at h
    injection h with h2
    rw [h2]
  | cons v vs ih =>
    intro i0 arr arr' h k hik hv
    by_cases hk0 : k = i0
    · subst hk0
      simp only [Nat.sub_self] at hv
      rcases hv with hv | hv
      · simp at hv
      · have h0 : v = none := by simpa using hv
        subst h0
        simp only [fillValsGo] at h
        exact fillValsGo_frame_low vs (k + 1) arr arr' h k (Nat.lt_succ_self k)
    · have hik2 : i0 + 1 ≤ k := by omega
      have hsub : k - i0 = (k - (i0 + 1)) + 1 := by omega
      rw [hsub] at hv
      have hv2 : vs[k - (i0 + 1)]? = none ∨ vs[k - (i0 + 1)]? = some none := by
        simpa using hv
      cases v with
      | none =>
        simp only [fillValsGo] at h
        exact ih (i0 + 1) arr arr' h k hik2 hv2
      | some s0 =>
        cases hps : pyInt s0 with
        | none => simp [fillValsGo, hps] at h
        | some n0 =>
          simp only [fillValsGo, hps] at h
          have hrec := ih (i0 + 1) _ arr' h k hik2 hv2
          rw [hrec, List.getElem?_set_ne (fun he => hk0 he.symm)]

theorem fillValsGo_err :
    ∀ (vs : List (Option String)) (i0 : Nat) (arr : List (Option Int)),
      (∃ (j : Nat) (s : String), vs[j]? = some (some s) ∧ pyInt s = none) →
      fillValsGo i0 vs arr = .error intErrMsg := by
  intro vs
  induction vs with
  | nil =>
    rintro i0 arr ⟨j, s, hj, -⟩
    simp at hj
  | cons v vs ih =>
    rintro i0 arr ⟨j, s, hj, hbad⟩
    cases v with
    | none =>
      simp only [fillValsGo]
      apply ih (i0 + 1) arr
      cases j with
      | zero => simp at hj
      | succ j =>
        refine ⟨j, s, ?_, hbad⟩
        simpa using hj
    | some s0 =>
      cases hps : pyInt s0 with
      | none => simp [fillValsGo, hps]
      | some n0 =>
        simp only [fillValsGo, hps]
        apply ih (i0 + 1)
        cases j with
        | zero =>
          have hs : s0 = s := by simpa using hj
          subst hs
          rw [hps] at hbad
          simp at hbad
        | succ j =>
          refine ⟨j, s, ?_, hbad⟩
          simpa using hj

theorem tempStep_max_eq {hl : List (Option Int) × List (Option Int)} {item : TempElem}
    (hmax : item.type = "maximum") (hmin : item.type ≠ "minimum") {hh : List (Option Int)}
    (hf : fillVals item.values hl.1 = .ok hh) :
    tempStep hl item = .ok (hh, hl.2) := by
  simp [tempStep, hmax, hmin, hf]

theorem tempStep_max_err {hl : List (Option Int) × List (Option Int)} {item : TempElem}
    (hmax : item.type = "maximum") {e : String}
    (hf : fillVals item.values hl.1 = .error e) :
    tempStep hl item = .error e := by
  simp [tempStep, hmax, hf]

theorem tempStep_min_eq {hl : List (Option Int) × List (Option Int)} {item : TempElem}
    (hmax : item.type ≠ "maximum") (hmin : item.type = "minimum") {hlo : List (Option Int)}
    (hf : fillVals item.values hl.2 = .ok hlo) :
    tempStep hl item = .ok (hl.1, hlo) := by
  simp [tempStep, hmax, hmin, hf]

theorem tempStep_min_err {hl : List (Option Int) × List (Option Int)} {item : TempElem}
    (hmax : item.type ≠ "maximum") (hmin : item.type = "minimum") {e : String}
    (hf : fillVals item.values hl.2 = .error e) :
    tempStep hl item = .error e := by
  simp [tempStep, hmax, hmin, hf]

theorem tempStep_other {hl : List (Option Int) × List (Option Int)} {item : TempElem}
    (hmax : item.type ≠ "maximum") (hmin : item.type ≠ "minimum") :
    tempStep hl item = .ok hl := by
  simp [tempStep, hmax, hmin]

theorem tempStep_length {hl hl2 : List (Option Int) × List (Option Int)} {item : TempElem}
    (h : tempStep hl item = .ok hl2) :
    hl2.1.length = hl.1.length ∧ hl2.2.length = hl.2.length := by
  by_cases hmax : item.type = "maximum" <;> by_cases hmin : item.type = "minimum"
  · rw [hmax] at hmin
    exact absurd hmin (by decide)
  · cases hf : fillVals item.values hl.1 with
    | error e => rw [tempStep_max_err hmax hf] at h; cases h
    | ok hh =>
      rw [tempStep_max_eq hmax hmin hf] at h
      injection h with h2
      rw [← h2]
      have := fillValsGo_length (item.values.take NUM_DAYS) 0 hl.1 hh hf
      exact ⟨this, rfl⟩
  · cases hf : fillVals item.values hl.2 with
    | error e => rw [tempStep_min_err hmax hmin hf] at h; cases h
    | ok hlo =>
      rw [tempStep_min_eq hmax hmin hf] at h
      injection h with h2
      rw [← h2]
      have := fillValsGo_length (item.values.take NUM_DAYS) 0 hl.2 hlo hf
      exact ⟨rfl, this⟩
  · rw [tempStep_other hmax hmin] at h
    injection h with h2
    rw [← h2]
    exact ⟨rfl, rfl⟩

theorem tempStep_err {item : TempElem}
    (hty : item.type = "maximum" ∨ item.type = "minimum")
    (hbad : ∃ (j : Nat) (s : String),
      (item.values.take NUM_DAYS)[j]? = some (some s) ∧ pyInt s = none) :
    ∀ hl, tempStep hl item = .error intErrMsg := by
  intro hl
  have hfv : ∀ a, fillVals item.values a = .error intErrMsg := fun a =>
    fillValsGo_err (item.values.take NUM_DAYS) 0 a hbad
  simp only [tempStep]
  rcases hty with hmax | hmin
  · simp [hmax, hfv]
  · by_cases hmax : item.type = "maximum"
    · simp [hmax, hfv]
    · simp [hmax, hmin, hfv]

theorem processTempsGo_length :
    ∀ (ts : List TempElem) (hl hl' : List (Option Int) × List (Option Int)),
      processTempsGo ts hl = .ok hl' →
      hl'.1.length = hl.1.length ∧ hl'.2.length = hl.2.length := by
  intro ts
  induction ts with
  | nil =>
    intro hl hl' h
    simp only [processTempsGo] at h
    injection h with h2
    rw [← h2]
    exact ⟨rfl, rfl⟩
  | cons item rest ih =>
    intro hl hl' h
    simp only [processTempsGo] at h
    cases hstep : tempStep hl item with
    | error e => simp [hstep] at h
    | ok hl2 =>
      simp only [hstep] at h
      obtain ⟨h1, h2⟩ := ih hl2 hl' h
      obtain ⟨g1, g2⟩ := tempStep_length hstep
      exact ⟨h1.trans g1, h2.trans g2⟩

theorem processTempsGo_err :
    ∀ (ts : List TempElem) (item : TempElem), item ∈ ts →
      (∀ hl, tempStep hl item = .error intErrMsg) →
      ∀ hl, ∃ e, processTempsGo ts hl = .error e := by
  intro ts
  induction ts with
  | nil =>
    intro item hmem _ _
    exact absurd hmem (List.not_mem_nil item)
  | cons b rest ih =>
    intro item hmem hbaditem hl
    cases hstep : tempStep hl b with
    | error e => exact ⟨e, by simp [processTempsGo, hstep]⟩
    | ok hl2 =>
      rcases List.mem_cons.mp hmem with heq | hmem2
      · subst heq
        rw [hbaditem hl] at hstep
        simp at hstep
      · obtain ⟨e, he⟩ := ih item hmem2 hbaditem hl2
        exact ⟨e, by simp [processTempsGo, hstep, he]⟩

/-! ## Closed forms of `parse_weather` -/

theorem parse_weather_temps_err {doc : WeatherDoc} {e : String}
    (h : processTemps doc.temperatures = .error e) : parse_weather doc = .error e := by
  simp [parse_weather, h]

theorem parse_weather_start_missing {doc : WeatherDoc}
    {hl : List (Option Int) × List (Option Int)}
    (h : processTemps doc.temperatures = .ok hl)
    (hs : doc.startValidTimes.getD 0 none = none) :
    parse_weather doc = .error startMsg := by
  simp only [parse_weather, h, hs]

theorem parse_weather_strptime_err {doc : WeatherDoc}
    {hl : List (Option Int) × List (Option Int)} {t : String}
    (h : processTemps doc.temperatures = .ok hl)
    (hs : doc.startValidTimes.getD 0 none = some t)
    (hd : pyStrptimeYmd (String.mk (t.toList.take 10)) = none) :
    parse_weather doc = .error strptimeErrMsg := by
  simp only [parse_weather, h, hs, hd]

theorem parse_weather_incomplete {doc : WeatherDoc}
    {hl : List (Option Int) × List (Option Int)} {t : String} {d : Date}
    (h : processTemps doc.temperatures = .ok hl)
    (hs : doc.startValidTimes.getD 0 none = some t)
    (hd : pyStrptimeYmd (String.mk (t.toList.take 10)) = some d)
    (hny : (hl.1.any Option.isNone || hl.2.any Option.isNone) = true) :
    parse_weather doc = .error incompleteMsg := by
  simp only [parse_weather, h, hs, hd]
  rw [if_pos hny]

theorem parse_weather_ok_inv {doc : WeatherDoc}
    {res : List Int × List Int × List String × Date}
    (h : parse_weather doc = .ok res) :
    ∃ hl d, processTemps doc.temperatures = .ok hl ∧
      (hl.1.any Option.isNone || hl.2.any Option.isNone) = false ∧
      res = (hl.1.map (fun o => o.getD 0), hl.2.map (fun o => o.getD 0),
        parseIcons doc.iconLinks, d) := by
  cases hpt : processTemps doc.temperatures with
  | error e =>
    rw [parse_weather_temps_err hpt] at h
    simp at h
  | ok hl =>
    simp only [parse_weather, hpt] at h
    cases hs : doc.startValidTimes.getD 0 none with
    | none =>
      simp only [hs] at h
      simp at h
    | some t =>
      simp only [hs] at h
      cases hd : pyStrptimeYmd (String.mk (t.toList.take 10)) with
      | none =>
        simp only [hd] at h
        simp at h
      | some d =>
        simp only [hd] at h
        by_cases hny : (hl.1.any Option.isNone || hl.2.any Option.isNone) = true
        · rw [if_pos hny] at h
          simp at h
        · rw [if_neg hny] at h
          refine ⟨hl, d, rfl, Bool.eq_false_iff.mpr hny, ?_⟩
          injection h with h2
          exact h2.symm

theorem matchesAllow_iconToken (s : String) :
    matchesAllow (iconTokenFromText s).toList = true := by
  unfold iconTokenFromText
  by_cases hm : matchesAllow ((rstripDigits (iconStem s)).map Char.toLower) = true
  · rw [if_pos hm]
    exact hm
  · rw [if_neg hm]
    decide

theorem parseIcons_allow (links : List (Option String)) :
    ∀ s ∈ parseIcons links, matchesAllow s.toList = true := by
  intro s hs
  simp only [parseIcons, List.mem_map] at hs
  obtain ⟨i, _, hi⟩ := hs
  cases hx : links.getD i none with
  | none =>
    rw [hx] at hi
    rw [← hi]
    decide
  | some t =>
    rw [hx] at hi
    rw [← hi]
    exact matchesAllow_iconToken t

/-! ## Claim C2 -/

/-- C2: whenever `parse_weather` succeeds, the returned `highs`, `lows` and
`icons` lists each have exactly `NUM_DAYS = 4` entries, all highs/lows are
(non-null) integers by construction of the result type, and every icon entry
matches `^[a-z0-9_-]+$` (in particular the fallback `"na"` does). -/
theorem c2_parse_invariants (doc : WeatherDoc) (h l : List Int) (ic : List String) (d : Date)
    (hok : parse_weather doc = .ok (h, l, ic, d)) :
    h.length = NUM_DAYS ∧ l.length = NUM_DAYS ∧ ic.length = NUM_DAYS ∧ NUM_DAYS = 4 ∧
      ∀ s ∈ ic, matchesAllow s.toList = true := by
  obtain ⟨hl, d2, hpt, _, heq⟩ := parse_weather_ok_inv hok
  obtain ⟨g1, g2⟩ := processTempsGo_length doc.temperatures _ hl hpt
  simp only [Prod.mk.injEq] at heq
  obtain ⟨hh, hll, hic, -⟩ := heq
  refine ⟨?_, ?_, ?_, rfl, ?_⟩
  · rw [hh, List.length_map, g1]
    simp
  · rw [hll, List.length_map, g2]
    simp
  · rw [hic]
    simp [parseIcons]
  · intro s hsmem
    rw [hic] at hsmem
    exact parseIcons_allow doc.iconLinks s hsmem

def docC2 : WeatherDoc :=
  ⟨[⟨"maximum", [some "70", some "72", some "68", some "65"]⟩,
    ⟨"minimum", [some "55", some "58", some "50", some "48"]⟩],
   [some "https://e/few.png"], [some "2024-03-10T00:00:00"]⟩

theorem c2_parse_invariants_witness :
    ([70, 72, 68, 65] : List Int).length = NUM_DAYS ∧
      ([55, 58, 50, 48] : List Int).length = NUM_DAYS ∧
      (["few", "na", "na", "na"] : List String).length = NUM_DAYS ∧ NUM_DAYS = 4 ∧
      ∀ s ∈ (["few", "na", "na", "na"] : List String), matchesAllow s.toList = true :=
  c2_parse_invariants docC2 [70, 72, 68, 65] [55, 58, 50, 48] ["few", "na", "na", "na"]
    ⟨2024, 3, 10⟩ rfl

/-! ## Claim C3 -/

/-- C3 (amended): if the temperature loop completes and leaves any of the 4
high or low slots unset, `parse_weather` returns an error (never a tuple);
the error carries the "incomplete high/low temperature data" message whenever
the start-valid-time step succeeds — that step runs first, so its own failure
takes precedence. -/
theorem c3_incomplete_amended (doc : WeatherDoc) (hs ls : List (Option Int))
    (hpt : processTemps doc.temperatures = .ok (hs, ls))
    (hny : (hs.any Option.isNone || ls.any Option.isNone) = true) :
    (∃ e, parse_weather doc = .error e) ∧
      ∀ (t : String) (d : Date), doc.startValidTimes.getD 0 none = some t →
        pyStrptimeYmd (String.mk (t.toList.take 10)) = some d →
        parse_weather doc = .error incompleteMsg := by
  constructor
  · cases hsv : doc.startValidTimes.getD 0 none with
    | none => exact ⟨startMsg, parse_weather_start_missing hpt hsv⟩
    | some t =>
      cases hd : pyStrptimeYmd (String.mk (t.toList.take 10)) with
      | none => exact ⟨strptimeErrMsg, parse_weather_strptime_err hpt hsv hd⟩
      | some d => exact ⟨incompleteMsg, parse_weather_incomplete hpt hsv hd hny⟩
  · intro t d hsv hd
    exact parse_weather_incomplete hpt hsv hd hny

/-- C3 counterexample: a document with no temperature elements leaves all 8
slots unset, yet when start-valid-time is also missing the parse fails with
the start-valid-time message, not the claimed "incomplete" message. -/
theorem c3_counterexample :
    parse_weather ⟨[], [], []⟩ = .error startMsg ∧ startMsg ≠ incompleteMsg :=
  ⟨rfl, by decide⟩

def docC3 : WeatherDoc :=
  ⟨[⟨"maximum", [some "70"]⟩], [], [some "2024-03-10T00:00:00"]⟩

theorem c3_incomplete_amended_witness :
    parse_weather docC3 = .error incompleteMsg :=
  (c3_incomplete_amended docC3 [some 70, none, none, none] [none, none, none, none]
      rfl rfl).2 "2024-03-10T00:00:00" ⟨2024, 3, 10⟩ rfl rfl

/-! ## Claim C4 -/

/-- C4 (amended): provided the temperature loop succeeded (its `int(...)`
conversions run first and their failure takes precedence), a missing
start-valid-time entry or one without a text child is a fatal error with the
"did not contain start-valid-time" message, and a text whose first 10
characters do not parse as `%Y-%m-%d` is a fatal strptime error. -/
theorem c4_start_time_amended (doc : WeatherDoc) (hs ls : List (Option Int))
    (hpt : processTemps doc.temperatures = .ok (hs, ls)) :
    (doc.startValidTimes.getD 0 none = none → parse_weather doc = .error startMsg) ∧
      ∀ t : String, doc.startValidTimes.getD 0 none = some t →
        pyStrptimeYmd (String.mk (t.toList.take 10)) = none →
        parse_weather doc = .error strptimeErrMsg :=
  ⟨fun hsv => parse_weather_start_missing hpt hsv,
   fun _ hsv hd => parse_weather_strptime_err hpt hsv hd⟩

/-- C4 counterexample: a document with no start-valid-time element but a
non-integer temperature value fails with the `int(...)` conversion error, not
with the claimed "did not contain start-valid-time" message. -/
theorem c4_counterexample :
    parse_weather ⟨[⟨"maximum", [some "abc"]⟩], [], []⟩ = .error intErrMsg ∧
      intErrMsg ≠ startMsg :=
  ⟨rfl, by decide⟩

def docC4 : WeatherDoc := ⟨[], [], [some "not-a-date"]⟩

theorem c4_start_time_amended_witness :
    parse_weather docC4 = .error strptimeErrMsg :=
  (c4_start_time_amended docC4 [none, none, none, none] [none, none, none, none] rfl).2
    "not-a-date" rfl rfl

/-! ## Claim C9 -/

/-- C9: if any temperature element of type maximum or minimum carries, within
its first `NUM_DAYS` value positions, a present text that is not a valid
Python integer literal, `parse_weather` fails with an error and returns no
tuple. -/
theorem c9_bad_int_fails (doc : WeatherDoc) (item : TempElem)
    (hmem : item ∈ doc.temperatures)
    (hty : item.type = "maximum" ∨ item.type = "minimum")
    (hbad : ∃ (j : Nat) (s : String),
      j < NUM_DAYS ∧ item.values[j]? = some (some s) ∧ pyInt s = none) :
    ∃ e, parse_weather doc = .error e := by
  obtain ⟨j, s, hj4, hjv, hbs⟩ := hbad
  have hbad2 : ∃ (j : Nat) (s : String),
      (item.values.take NUM_DAYS)[j]? = some (some s) ∧ pyInt s = none :=
    ⟨j, s, by rw [List.getElem?_take_of_lt hj4]; exact hjv, hbs⟩
  have hstep := tempStep_err hty hbad2
  obtain ⟨e, he⟩ := processTempsGo_err doc.temperatures item hmem hstep
    (List.replicate NUM_DAYS none, List.replicate NUM_DAYS none)
  exact ⟨e, parse_weather_temps_err he⟩

def docC9 : WeatherDoc :=
  ⟨[⟨"minimum", [some "55", some "5x"]⟩], [], [some "2024-03-10"]⟩

theorem c9_bad_int_fails_witness : ∃ e, parse_weather docC9 = .error e :=
  c9_bad_int_fails docC9 ⟨"minimum", [some "55", some "5x"]⟩
    (List.mem_cons_self _ _) (Or.inr rfl) ⟨1, "5x", by decide, rfl, rfl⟩

/-! ## Claim C10 -/

theorem dropWhile_eq_nil_of_forall {p : Char → Bool} :
    ∀ l : List Char, (∀ c ∈ l, p c = true) → l.dropWhile p = [] := by
  intro l
  induction l with
  | nil => intro _; rfl
  | cons c cs ih =>
    intro hall
    rw [List.dropWhile_cons, if_pos (hall c (List.mem_cons_self c cs))]
    exact ih fun x hx => hall x (List.mem_cons_of_mem c hx)

/-- C10: when the candidate stem (final path segment up to the first dot) is
a non-empty run of decimal digits, stripping trailing digits leaves the empty
string, the allow-list rejects it, and the icon token falls back to `"na"`. -/
theorem c10_all_digit_stem_na (s : String)
    (hne : iconStem s ≠ [])
    (hdig : ∀ c ∈ iconStem s, c.isDigit = true) :
    iconTokenFromText s = "na" := by
  have hstrip : rstripDigits (iconStem s) = [] := by
    unfold rstripDigits
    rw [dropWhile_eq_nil_of_forall _ (fun c hc => hdig c (List.mem_reverse.mp hc))]
    rfl
  unfold iconTokenFromText
  rw [hstrip]
  decide

theorem c10_all_digit_stem_na_witness :
    iconStem "https://example.com/12345.png" ≠ [] ∧
      (∀ c ∈ iconStem "https://example.com/12345.png", c.isDigit = true) ∧
      iconTokenFromText "https://example.com/12345.png" = "na" :=
  ⟨by decide, by decide, c10_all_digit_stem_na "https://example.com/12345.png"
    (by decide) (by decide)⟩

/-! ## Claim C1 -/

theorem splitOnChar_ne_nil (sep : Char) : ∀ l : List Char, splitOnChar sep l ≠ [] := by
  intro l
  cases l with
  | nil => simp [splitOnChar]
  | cons c cs =>
    simp only [splitOnChar]
    by_cases hc : c = sep
    · simp [hc]
    · rw [if_neg hc]
      cases splitOnChar sep cs <;> simp

theorem headD_splitOnChar (sep : Char) :
    ∀ l : List Char, (splitOnChar sep l).headD [] = l.takeWhile (fun c => c ≠ sep) := by
  intro l
  induction l with
  | nil => rfl
  | cons c cs ih =>
    simp only [splitOnChar]
    by_cases hc : c = sep
    · subst hc
      simp [List.takeWhile_cons]
    · rw [if_neg hc]
      cases hr : splitOnChar sep cs with
      | nil => exact absurd hr (splitOnChar_ne_nil sep cs)
      | cons x xs =>
        rw [hr] at ih
        simp only [List.headD_cons] at ih ⊢
        simp [List.takeWhile_cons, hc, ih]

/-- C1 (amended): the candidate icon token keeps the text of the final path
segment before the FIRST `.` (Python `split(".")[0]`), not the text up to the
last dot; then trailing decimal digits are stripped, the result is
lowercased, and the allow-list decides between it and `"na"`.  The
`ICON42.png` example still yields `"icon"`.  Day-index behaviour: entry
present with text gives that token, otherwise `"na"`. -/
theorem c1_icon_token_amended :
    (∀ s : String, iconTokenFromText s = specIconTokenFirstDot s) ∧
      (∀ (links : List (Option String)) (i : Nat),
        (parseIcons links)[i]? =
          if i < NUM_DAYS then
            some (match links.getD i none with
              | some s => iconTokenFromText s
              | none => "na")
          else none) ∧
      iconTokenFromText "https://example.com/path/ICON42.png" = "icon" := by
  refine ⟨?_, ?_, rfl⟩
  · intro s
    unfold iconTokenFromText specIconTokenFirstDot iconStem
    rw [headD_splitOnChar]
  · intro links i
    simp only [parseIcons, List.getElem?_map]
    by_cases hi : i < NUM_DAYS
    · rw [List.getElem?_range hi, if_pos hi]
      rfl
    · rw [if_neg hi]
      have hnone : (List.range NUM_DAYS)[i]? = none :=
        List.getElem?_eq_none (by simpa using Nat.le_of_not_lt hi)
      rw [hnone]
      rfl

def docC1 : WeatherDoc :=
  ⟨[⟨"maximum", [some "70", some "72", some "68", some "65"]⟩,
    ⟨"minimum", [some "55", some "58", some "50", some "48"]⟩],
   [some "https://example.com/fog.day.png"], [some "2024-03-10T00:00:00"]⟩

/-- C1 counterexample: for the multi-dot segment `fog.day.png` the code keeps
the text before the FIRST dot and yields token `"fog"`, while the claim's
rule (strip the text after the LAST dot) leaves `fog.day`, which fails the
allow-list and would give `"na"`. -/
theorem c1_counterexample :
    parse_weather docC1 =
      .ok ([70, 72, 68, 65], [55, 58, 50, 48], ["fog", "na", "na", "na"], ⟨2024, 3, 10⟩) ∧
      specIconTokenLastDot "https://example.com/fog.day.png" = "na" ∧
      ("fog" : String) ≠ "na" :=
  ⟨rfl, rfl, by decide⟩

/-! ## Claim C5 -/

def docC5 : WeatherDoc :=
  ⟨[⟨"maximum", [some "10", some "11", some "12", some "13"]⟩,
    ⟨"maximum", [some "20"]⟩,
    ⟨"minimum", [some "55", some "58", some "50", some "48"]⟩],
   [], [some "2024-03-10T00:00:00"]⟩

/-- C5: a temperature element's value loop fills exactly the indices
`0 ≤ i < min NUM_DAYS (number of values)` whose text is present (with the
parsed integer, overwriting whatever was there — last write wins), and leaves
every other index of the accumulator unchanged; elements are folded in
document order, so with two maximum elements the second one's value
overwrites index 0 while the first one's values survive at indices 1-3. -/
theorem c5_fill_order_overwrite :
    (∀ (vals : List (Option String)) (arr arr2 : List (Option Int)),
        fillVals vals arr = .ok arr2 → NUM_DAYS ≤ arr.length →
        (∀ (i : Nat) (s : String), i < min NUM_DAYS vals.length →
            vals.getD i none = some s →
            ∃ n, pyInt s = some n ∧ arr2[i]? = some (some n)) ∧
        (∀ i : Nat, min NUM_DAYS vals.length ≤ i ∨ vals.getD i none = none →
            arr2[i]? = arr[i]?)) ∧
      parse_weather docC5 =
        .ok ([20, 11, 12, 13], [55, 58, 50, 48], ["na", "na", "na", "na"], ⟨2024, 3, 10⟩) := by
  refine ⟨?_, rfl⟩
  intro vals arr arr2 hfill hlen
  have htl : (vals.take NUM_DAYS).length = min NUM_DAYS vals.length := by
    simp [List.length_take]
  constructor
  · intro i s hi hv
    have hi4 : i < NUM_DAYS := lt_of_lt_of_le hi (Nat.min_le_left _ _)
    have hilen : i < vals.length := lt_of_lt_of_le hi (Nat.min_le_right _ _)
    simp only [List.getD_eq_getElem?_getD, List.getElem?_eq_getElem hilen,
      Option.getD_some] at hv
    have hv2 : (vals.take NUM_DAYS)[i]? = some (some s) := by
      rw [List.getElem?_take_of_lt hi4, List.getElem?_eq_getElem hilen, hv]
    have hlen2 : 0 + (vals.take NUM_DAYS).length ≤ arr.length := by
      rw [Nat.zero_add, htl]
      exact le_trans (Nat.min_le_left _ _) hlen
    have h0 := fillValsGo_getElem (vals.take NUM_DAYS) 0 arr arr2 hfill hlen2 i s hv2
    simpa using h0
  · intro i hcase
    apply fillValsGo_frame_skip (vals.take NUM_DAYS) 0 arr arr2 hfill i (Nat.zero_le i)
    rw [Nat.sub_zero]
    rcases hcase with hge | hnone
    · left
      apply List.getElem?_eq_none
      rw [htl]
      exact hge
    · by_cases htl2 : i < (vals.take NUM_DAYS).length
      · right
        have hi4 : i < NUM_DAYS := by
          rw [htl] at htl2
          exact lt_of_lt_of_le htl2 (Nat.min_le_left _ _)
        have hilen : i < vals.length := by
          rw [htl] at htl2
          exact lt_of_lt_of_le htl2 (Nat.min_le_right _ _)
        simp only [List.getD_eq_getElem?_getD, List.getElem?_eq_getElem hilen,
          Option.getD_some] at hnone
        rw [List.getElem?_take_of_lt hi4, List.getElem?_eq_getElem hilen, hnone]
      · left
        exact List.getElem?_eq_none (Nat.le_of_not_lt htl2)

theorem c5_fill_order_overwrite_witness :
    (∀ (i : Nat) (s : String),
        i < min NUM_DAYS ([some "7", none] : List (Option String)).length →
        ([some "7", none] : List (Option String)).getD i none = some s →
        ∃ n, pyInt s = some n ∧
          ([some 7, none, none, none] : List (Option Int))[i]? = some (some n)) ∧
      (∀ i : Nat, min NUM_DAYS ([some "7", none] : List (Option String)).length ≤ i ∨
          ([some "7", none] : List (Option String)).getD i none = none →
          ([some 7, none, none, none] : List (Option Int))[i]? =
            ([none, none, none, none] : List (Option Int))[i]?) :=
  c5_fill_order_overwrite.1 [some "7", none] [none, none, none, none]
    [some 7, none, none, none] rfl (by decide)

/-! ## Lemmas about the substitution chain -/

theorem isPfx_length : ∀ {p s : List Char}, isPfx p s = true → p.length ≤ s.length := by
  intro p
  induction p with
  | nil => intro s _; simp
  | cons a as ih =>
    intro s h
    cases s with
    | nil => simp [isPfx] at h
    | cons b bs =>
      simp only [isPfx, Bool.and_eq_true] at h
      simpa using ih h.2

theorem replaceAll_self {p r : List Char} (hp : p ≠ []) : replaceAll p r p = r := by
  have h := @replaceAll_self_append p r hp []
  rwa [List.append_nil, replaceAll_nil r hp, List.append_nil] at h

theorem replaceAll_append_right_disjoint {p r : List Char} (hp : p ≠ [])
    {v : List Char} (hv : ∀ c ∈ v, c ∉ p) :
    ∀ m : List Char, replaceAll p r (m ++ v) = replaceAll p r m ++ v := by
  have hplen : 1 ≤ p.length := by
    cases p with
    | nil => exact absurd rfl hp
    | cons _ _ => simp
  have hvocc : occursIn p v = false := occursIn_eq_false_of_disjoint hp v hv
  have H : ∀ (n : Nat) (m : List Char), m.length ≤ n →
      replaceAll p r (m ++ v) = replaceAll p r m ++ v := by
    intro n
    induction n with
    | zero =>
      intro m hm
      have hm0 : m = [] := List.eq_nil_of_length_eq_zero (Nat.le_zero.mp hm)
      subst hm0
      simp [replaceAll_nil r hp, replaceAll_of_not_occurs hp v hvocc]
    | succ n ih =>
      intro m hm
      cases m with
      | nil => simp [replaceAll_nil r hp, replaceAll_of_not_occurs hp v hvocc]
      | cons c m2 =>
        have hpfxeq : isPfx p ((c :: m2) ++ v) = isPfx p (c :: m2) :=
          isPfx_append_right_disjoint (c :: m2) p v hp hv
        simp only [List.length_cons] at hm
        by_cases hpre : isPfx p (c :: m2) = true
        · have hpre2 : isPfx p (c :: (m2 ++ v)) = true := by
            rw [← List.cons_append, hpfxeq]
            exact hpre
          have hlenp : p.length ≤ (c :: m2).length := isPfx_length hpre
          rw [List.cons_append, replaceAll_pos r hp hpre2, replaceAll_pos r hp hpre]
          rw [← List.cons_append, List.drop_append_of_le_length hlenp]
          rw [ih ((c :: m2).drop p.length)
            (by simp only [List.length_drop, List.length_cons]; omega)]
          rw [List.append_assoc]
        · have hpref : isPfx p (c :: m2) = false := Bool.eq_false_iff.mpr hpre
          have hpre2 : isPfx p (c :: (m2 ++ v)) = false := by
            rw [← List.cons_append, hpfxeq]
            exact hpref
          rw [List.cons_append, replaceAll_neg r hp hpre2, replaceAll_neg r hp hpref]
          rw [ih m2 (Nat.le_of_succ_le_succ hm), List.cons_append]
  exact fun m => H m.length m (Nat.le_refl _)

theorem replaceAll_mid {p r : List Char} (hp : p ≠ []) (u m v : List Char)
    (hu : ∀ c ∈ u, c ∉ p) (hv : ∀ c ∈ v, c ∉ p) :
    replaceAll p r (u ++ m ++ v) = u ++ replaceAll p r m ++ v := by
  rw [List.append_assoc, replaceAll_append_of_disjoint hp u (m ++ v) hu,
    replaceAll_append_right_disjoint hp hv m, List.append_assoc]

theorem applySubs_nil (t : List Char) : applySubs [] t = t := rfl

theorem applySubs_cons (pr : List Char × List Char) (rest : List (List Char × List Char))
    (t : List Char) : applySubs (pr :: rest) t = applySubs rest (replaceAll pr.1 pr.2 t) := rfl

theorem applySubs_frame (subs : List (List Char × List Char)) :
    ∀ t : List Char, (∀ pr ∈ subs, pr.1 ≠ [] ∧ occursIn pr.1 t = false) →
      applySubs subs t = t := by
  induction subs with
  | nil => intro t _; rfl
  | cons pr rest ih =>
    intro t hcond
    obtain ⟨hne, hocc⟩ := hcond pr (List.mem_cons_self pr rest)
    rw [applySubs_cons, replaceAll_of_not_occurs hne t hocc]
    exact ih t fun q hq => hcond q (List.mem_cons_of_mem pr hq)

theorem applySubs_mid (subs : List (List Char × List Char)) :
    ∀ (u v m : List Char),
      (∀ pr ∈ subs, pr.1 ≠ [] ∧ (∀ c ∈ u, c ∉ pr.1) ∧ (∀ c ∈ v, c ∉ pr.1)) →
      applySubs subs (u ++ m ++ v) = u ++ applySubs subs m ++ v := by
  induction subs with
  | nil => intro u v m _; rfl
  | cons pr rest ih =>
    intro u v m hcond
    obtain ⟨hne, hu, hv⟩ := hcond pr (List.mem_cons_self pr rest)
    rw [applySubs_cons, applySubs_cons, replaceAll_mid hne u m v hu hv]
    exact ih u v (replaceAll pr.1 pr.2 m) fun q hq => hcond q (List.mem_cons_of_mem pr hq)

/-- `renderSvg` is exactly the sequential application of its fourteen
substitution pairs in source order. -/
theorem renderSvg_eq_applySubs (highs lows : List Int) (icons : List String) (d : Date)
    (t : List Char) :
    renderSvg highs lows icons d t = applySubs (subsList highs lows icons d) t := by
  simp only [renderSvg, subsList, applySubs, List.foldl_cons, List.foldl_nil]

theorem subsList_fst (highs lows : List Int) (icons : List String) (d : Date) :
    (subsList highs lows icons d).map Prod.fst = placeholderPatterns := rfl

theorem weekdayAfter_lt (d : Date) (k : Nat) : weekdayAfter d k < 7 :=
  Nat.mod_lt _ (by decide)

theorem dayName_no_pattern : ∀ n, n < 7 →
    occursIn "DAY_THREE".toList ((daysOfWeek.getD n "").toList) = false ∧
      occursIn "DAY_FOUR".toList ((daysOfWeek.getD n "").toList) = false := by
  decide

/-! ## Claim C8 -/

/-- C8: the renderer never substitutes `DAY_ONE` or `DAY_TWO` — they are not
among the fourteen substituted patterns — and a template in which none of the
fourteen patterns occurs (in particular one carrying `DAY_ONE`/`DAY_TWO`
inside otherwise placeholder-free text) passes through unchanged. -/
theorem c8_day_one_two_untouched :
    (∀ (highs lows : List Int) (icons : List String) (d : Date) (t : List Char),
        (∀ p ∈ placeholderPatterns, occursIn p t = false) →
        renderSvg highs lows icons d t = t) ∧
      "DAY_ONE".toList ∉ placeholderPatterns ∧ "DAY_TWO".toList ∉ placeholderPatterns := by
  refine ⟨?_, by decide, by decide⟩
  intro highs lows icons d t hocc
  rw [renderSvg_eq_applySubs]
  apply applySubs_frame
  intro pr hpr
  have hfst : pr.1 ∈ placeholderPatterns := by
    rw [← subsList_fst highs lows icons d]
    exact List.mem_map_of_mem Prod.fst hpr
  have hall : ∀ q ∈ placeholderPatterns, q ≠ [] := by decide
  exact ⟨hall pr.1 hfst, hocc pr.1 hfst⟩

theorem c8_day_one_two_untouched_witness :
    (∀ p ∈ placeholderPatterns,
        occursIn p "<text>DAY_ONE DAY_TWO</text>".toList = false) ∧
      renderSvg [70, 72, 68, 65] [55, 58, 50, 48] ["few", "bkn", "na", "rain"] ⟨2024, 3, 10⟩
          "<text>DAY_ONE DAY_TWO</text>".toList = "<text>DAY_ONE DAY_TWO</text>".toList :=
  ⟨by decide, c8_day_one_two_untouched.1 [70, 72, 68, 65] [55, 58, 50, 48]
    ["few", "bkn", "na", "rain"] ⟨2024, 3, 10⟩ "<text>DAY_ONE DAY_TWO</text>".toList (by decide)⟩

/-! ## Claim C6 -/

theorem applySubs_append (a b : List (List Char × List Char)) (t : List Char) :
    applySubs (a ++ b) t = applySubs b (applySubs a t) := by
  simp [applySubs, List.foldl_append]

/-- C6: for every start date the renderer substitutes `DAY_THREE` with the
weekday name of `startDate + 2` days and `DAY_FOUR` with the name of
`startDate + 3` days, from the fixed Monday..Sunday table whose Saturday
entry is the literal `"Caturday"`; for the start-valid-time text
`2024-03-10T00:00:00` the parsed start date is 2024-03-10 and the two names
are those of 2024-03-12 (Tuesday) and 2024-03-13 (Wednesday). -/
theorem c6_day_three_four_names :
    (∀ (highs lows : List Int) (icons : List String) (d : Date),
        renderSvg highs lows icons d "DAY_THREE".toList =
          (daysOfWeek.getD (weekdayAfter d 2) "").toList ∧
        renderSvg highs lows icons d "DAY_FOUR".toList =
          (daysOfWeek.getD (weekdayAfter d 3) "").toList) ∧
      daysOfWeek = ["Monday", "Tuesday", "Wednesday", "Thursday", "Friday",
        "Caturday", "Sunday"] ∧
      pyStrptimeYmd (String.mk ("2024-03-10T00:00:00".toList.take 10)) =
        some ⟨2024, 3, 10⟩ ∧
      weekdayAfter ⟨2024, 3, 10⟩ 2 = pyWeekday ⟨2024, 3, 12⟩ ∧
      weekdayAfter ⟨2024, 3, 10⟩ 3 = pyWeekday ⟨2024, 3, 13⟩ ∧
      renderSvg [70, 72, 68, 65] [55, 58, 50, 48] ["few", "bkn", "na", "rain"] ⟨2024, 3, 10⟩
          "DAY_THREE|DAY_FOUR".toList = "Tuesday|Wednesday".toList := by
  refine ⟨?_, rfl, rfl, rfl, rfl, rfl⟩
  intro highs lows icons d
  have hpre12 : ∀ q ∈ placeholderPatterns.take 12, q ≠ [] ∧
      (occursIn q "DAY_THREE".toList = false ∧ occursIn q "DAY_FOUR".toList = false) := by
    decide
  have key : ∀ t : List Char,
      (∀ q ∈ placeholderPatterns.take 12, occursIn q t = false) →
      renderSvg highs lows icons d t =
        replaceAll "DAY_FOUR".toList (daysOfWeek.getD (weekdayAfter d 3) "").toList
          (replaceAll "DAY_THREE".toList (daysOfWeek.getD (weekdayAfter d 2) "").toList t) := by
    intro t ht
    rw [renderSvg_eq_applySubs]
    have hmem : ∀ pr ∈ (subsList highs lows icons d).take 12,
        pr.1 ∈ placeholderPatterns.take 12 := by
      intro pr hpr
      have hm : pr.1 ∈ ((subsList highs lows icons d).take 12).map Prod.fst :=
        List.mem_map_of_mem Prod.fst hpr
      rwa [List.map_take, subsList_fst] at hm
    have hsplit : subsList highs lows icons d =
        (subsList highs lows icons d).take 12 ++ (subsList highs lows icons d).drop 12 :=
      (List.take_append_drop 12 _).symm
    rw [hsplit, applySubs_append,
      applySubs_frame _ t (fun pr hpr => ⟨(hpre12 _ (hmem pr hpr)).1, ht _ (hmem pr hpr)⟩)]
    rfl
  constructor
  · rw [key "DAY_THREE".toList (fun q hq => ((hpre12 q hq).2).1)]
    have hself : replaceAll "DAY_THREE".toList
        (daysOfWeek.getD (weekdayAfter d 2) "").toList "DAY_THREE".toList =
        (daysOfWeek.getD (weekdayAfter d 2) "").toList := replaceAll_self (by decide)
    rw [hself]
    exact replaceAll_of_not_occurs (by decide) _
      (dayName_no_pattern (weekdayAfter d 2) (weekdayAfter_lt d 2)).2
  · rw [key "DAY_FOUR".toList (fun q hq => ((hpre12 q hq).2).2)]
    have hid : replaceAll "DAY_THREE".toList
        (daysOfWeek.getD (weekdayAfter d 2) "").toList "DAY_FOUR".toList =
        "DAY_FOUR".toList := replaceAll_of_not_occurs (by decide) _ (by decide)
    rw [hid]
    exact replaceAll_self (by decide)

/-! ## Claim C7 -/

def subsC7 : List (List Char × List Char) :=
  subsList [0, 0, 0, 0] [0, 0, 0, 0] ["na", "_", "na", "na"] ⟨2024, 3, 10⟩

/-- `subsC7` with the `ICON_ONE` and `ICON_TWO` passes exchanged. -/
def subsC7swapped : List (List Char × List Char) :=
  (subsC7.take 2).reverse ++ subsC7.drop 2

/-- C7 counterexample: with the reachable icon token `"_"` for day two (all
replacement texts still free of every placeholder token), the template
`ICONICON_TWOONE` renders differently under the source order and under the
order with `ICON_ONE`/`ICON_TWO` exchanged: replacing `ICON_TWO` by `_`
creates a fresh `ICON_ONE` occurrence out of adjacent template text, which
the later order then substitutes but the source order does not revisit. -/
theorem c7_counterexample :
    (∀ pr ∈ subsC7, ∀ p ∈ placeholderPatterns, occursIn p pr.2 = false) ∧
      List.Perm subsC7swapped subsC7 ∧
      renderSvg [0, 0, 0, 0] [0, 0, 0, 0] ["na", "_", "na", "na"] ⟨2024, 3, 10⟩
          "ICONICON_TWOONE".toList = "ICON_ONE".toList ∧
      applySubs subsC7swapped "ICONICON_TWOONE".toList = "na".toList ∧
      ("ICON_ONE".toList : List Char) ≠ "na".toList := by
  refine ⟨by decide, by decide, rfl, rfl, by decide⟩

/-- C7 (amended): substitution is literal whole-substring replacement — an
occurrence of `HIGH_ONE` embedded in unrelated text (text with no uppercase
or underscore characters) is still replaced and the surrounding text passes
through untouched.  The fixed order of the fourteen passes is part of the
semantics: although no replacement text contains a placeholder token, a
replacement can combine with adjacent template text into a new placeholder
occurrence, so different orders can disagree (see the counterexample). -/
theorem c7_literal_replacement (u v : List Char)
    (hu : ∀ c ∈ u, phChar c = false) (hv : ∀ c ∈ v, phChar c = false) :
    renderSvg [70, 72, 68, 65] [55, 58, 50, 48] ["few", "bkn", "na", "rain"] ⟨2024, 3, 10⟩
        (u ++ "HIGH_ONE".toList ++ v) = u ++ "70".toList ++ v := by
  have hpat : ∀ q ∈ placeholderPatterns, ∀ c ∈ q, phChar c = true := by decide
  have hne : ∀ q ∈ placeholderPatterns, q ≠ [] := by decide
  have hcond : ∀ pr ∈ subsList [70, 72, 68, 65] [55, 58, 50, 48]
      ["few", "bkn", "na", "rain"] ⟨2024, 3, 10⟩,
      pr.1 ≠ [] ∧ (∀ c ∈ u, c ∉ pr.1) ∧ (∀ c ∈ v, c ∉ pr.1) := by
    intro pr hpr
    have hfst : pr.1 ∈ placeholderPatterns := by
      rw [← subsList_fst [70, 72, 68, 65] [55, 58, 50, 48]
        ["few", "bkn", "na", "rain"] ⟨2024, 3, 10⟩]
      exact List.mem_map_of_mem Prod.fst hpr
    exact ⟨hne pr.1 hfst,
      fun c hc => not_mem_of_phChar (hpat pr.1 hfst) (hu c hc),
      fun c hc => not_mem_of_phChar (hpat pr.1 hfst) (hv c hc)⟩
  have hmid := applySubs_mid (subsList [70, 72, 68, 65] [55, 58, 50, 48]
    ["few", "bkn", "na", "rain"] ⟨2024, 3, 10⟩) u v "HIGH_ONE".toList hcond
  rw [renderSvg_eq_applySubs, hmid]
  rfl

theorem c7_literal_replacement_witness :
    (∀ c ∈ "xx ".toList, phChar c = false) ∧ (∀ c ∈ " yy".toList, phChar c = false) ∧
      renderSvg [70, 72, 68, 65] [55, 58, 50, 48] ["few", "bkn", "na", "rain"] ⟨2024, 3, 10⟩
          ("xx ".toList ++ "HIGH_ONE".toList ++ " yy".toList) =
        "xx ".toList ++ "70".toList ++ " yy".toList :=
  ⟨by decide, by decide,
    c7_literal_replacement "xx ".toList " yy".toList (by decide) (by decide)⟩
